import Mathlib

/-!
Verification of the time-tracker core (sources: src/main.rs, src/day.rs,
src/activity.rs, src/settings.rs).

The slot/time model, the day timeline algebra, the activity catalog
operations, the shortcut derivation, the timeline-editor import and the
multi-day aggregation are embedded as executable Lean definitions, and the
spec's claims about them are settled as theorems below.

Modelling conventions:
- `usize` values are `Nat`; the one `as usize` cast of a possibly negative
  `isize` (in `Slot::from_time`) is modelled by wrapping modulo 2^64.
- `f32` quantities (`hours_productive`, targets) are modelled as `Rat`.
  Every value that actually occurs is a quarter-integer far below 2^23,
  where `f32` arithmetic is exact, so `Rat` is a faithful model.
- Wall-clock access (`Slot::now`) is an injected parameter.
- Strings are compared and parsed through their character lists.
-/

/-- Constants from src/main.rs lines 20-24. -/
def SLOTS_PER_HOUR : Nat := 4

def DAY_SLOTS : Nat := 24 * SLOTS_PER_HOUR

/-- A slot (tuple struct `Slot(usize)` in src/day.rs line 16) is a `usize`
    index into the day-start-shifted grid; it is modelled as a bare `Nat`,
    with the `Slot` operations living in a `Slot.` prefixed namespace. -/
def DAY_START : Nat := 4 * SLOTS_PER_HOUR

def PRODUCTIVE_TARGET : Rat := 8

/-- Wrapping cast of an `isize` bit pattern to `usize`
    (`as usize` in src/day.rs line 37). -/
def asUsize (x : Int) : Nat := (x % 18446744073709551616).toNat

/-- The signed intermediate computed inside `Slot::from_time`
    (src/day.rs lines 36-37) before the cast to `usize`. -/
def Slot.fromTimePre (hour minute : Nat) : Int :=
  ((hour * SLOTS_PER_HOUR + minute / (60 / SLOTS_PER_HOUR) : Nat) : Int)
    - (DAY_START : Int) + (DAY_SLOTS : Int)

/-- `Slot::from_time` (src/day.rs lines 33-40). -/
def Slot.fromTime (hour minute : Nat) : Nat :=
  asUsize (Slot.fromTimePre hour minute) % DAY_SLOTS

/-- `Slot::next` (src/day.rs lines 42-44): not wrapped. -/
def Slot.next (s : Nat) : Nat := s + 1

/-- Zero-padded two-digit rendering, Rust's `{:02}` format for the
    values (< 100) that occur here. -/
def pad2 (n : Nat) : String := if n < 10 then "0" ++ toString n else toString n

/-- `impl Display for Slot` (src/day.rs lines 82-90). -/
def Slot.display (s : Nat) : String :=
  let shifted := (s + DAY_START) % DAY_SLOTS
  pad2 (shifted / SLOTS_PER_HOUR) ++ ":"
    ++ pad2 ((shifted % SLOTS_PER_HOUR) * (60 / SLOTS_PER_HOUR))

/-- `Activity` (src/activity.rs lines 8-14). -/
structure Activity where
  name : String
  productive : Bool
  comment : Option String
  deriving DecidableEq

/-- `impl PartialEq for Activity` (src/activity.rs lines 16-20):
    equality is by `name` only. -/
def Activity.eqByName (a b : Activity) : Bool := a.name == b.name

/-- `Activity::get_by_name` (src/activity.rs lines 23-25). -/
def Activity.getByName (actis : List Activity) (name : String) : Option Activity :=
  actis.find? (fun o => o.name == name)

/-- `Option<Activity>` inequality under the name-only `PartialEq`
    (the `*act != o` test in src/day.rs line 141). -/
def optActNe (a b : Option Activity) : Bool :=
  match a, b with
  | none, none => false
  | some x, some y => !(Activity.eqByName x y)
  | _, _ => true

/-- The comment-difference test
    `act.as_ref().zip(o.as_ref()).map_or(false, |(a, b)| a.comment != b.comment)`
    (src/day.rs line 141). -/
def commentsDiffer (a b : Option Activity) : Bool :=
  match a, b with
  | some x, some y => x.comment != y.comment
  | _, _ => false

/-- `Day` (src/day.rs lines 92-95). -/
structure Day where
  time_slots : List (Option Activity)
  deriving DecidableEq

/-- The `scan` closure of `Day::slots_collapsed` (src/day.rs lines 133-154),
    unrolled into a recursion: `i` is the enumeration index, the second
    argument is the scan state `Option<(start, act)>`.  Exactly as with
    Rust's `scan`, nothing is emitted once the input list is exhausted. -/
def slotsCollapsedAux :
    Nat → Option (Nat × Option Activity) → List (Option Activity) →
      List (Nat × Nat × Option Activity)
  | _, _, [] => []
  | i, none, o :: rest => slotsCollapsedAux (i + 1) (some (i, o)) rest
  | i, some (start, act), o :: rest =>
      if optActNe act o || commentsDiffer act o then
        (start, i, act) :: slotsCollapsedAux (i + 1) (some (i, o)) rest
      else
        slotsCollapsedAux (i + 1) (some (start, act)) rest

/-- `Day::slots_collapsed` (src/day.rs lines 133-154). -/
def Day.slotsCollapsed (d : Day) : List (Nat × Nat × Option Activity) :=
  slotsCollapsedAux 0 none d.time_slots

/-- `Day::hours_productive` (src/day.rs lines 168-175), `f32` as `Rat`. -/
def Day.hoursProductive (d : Day) : Rat :=
  (((d.time_slots.filterMap id).filter (fun a => a.productive)).length : Rat)
    / (SLOTS_PER_HOUR : Rat)

/-- A sample catalog activity used for concrete evaluations. -/
def workActivity : Activity := { name := "work", productive := true, comment := none }

/-- A day whose 96 slots all hold the same activity (same name, same
    comment in every slot). -/
def allSameDay : Day := { time_slots := List.replicate DAY_SLOTS (some workActivity) }

/-- The shortcut-derivation loop body of `Settings::get_shortcuts`
    (src/settings.rs lines 42-59): for each activity in catalog order, push
    the first character of its name not already claimed by an earlier
    shortcut, or `none` if every character is claimed.  `acc` is the
    `shortcuts` vector built so far. -/
def getShortcutsAux : List Activity → List (Option Char) → List (Option Char)
  | [], acc => acc
  | a :: rest, acc =>
      getShortcutsAux rest (acc ++ [a.name.data.find? (fun c => !(acc.contains (some c)))])

/-- `Settings::get_shortcuts` (src/settings.rs lines 42-59), with the
    activity catalog as the input (the `RefCell` memoisation only caches
    this pure computation). -/
def Settings.getShortcuts (activities : List Activity) : List (Option Char) :=
  getShortcutsAux activities []

/-- Structural companion of `getShortcutsAux` used to reason about it:
    same computation, threading the claimed list downward. -/
def buildShortcuts (claimed : List (Option Char)) : List Activity → List (Option Char)
  | [] => []
  | a :: rest =>
      let s := a.name.data.find? (fun c => !(claimed.contains (some c)))
      s :: buildShortcuts (claimed ++ [s]) rest

/-- Rust `str::split_once` (used in src/day.rs line 64): split at the first
    occurrence of `sep`, or `none` when `sep` does not occur. -/
def splitOnce (sep : Char) : List Char → Option (List Char × List Char)
  | [] => none
  | c :: rest =>
      if c = sep then some ([], rest)
      else (splitOnce sep rest).map (fun p => (c :: p.1, p.2))

def digitsToNat (s : List Char) : Nat :=
  s.foldl (fun acc c => acc * 10 + (c.toNat - 48)) 0

def USIZE_MAX : Nat := 18446744073709551615

/-- Rust `usize::from_str` (the `.parse()` calls in src/day.rs lines 65-68):
    an optional leading plus sign followed by one or more ASCII digits whose
    value fits in a `usize`.  A digit string above `USIZE_MAX` is a
    `PosOverflow` error; Rust detects the overflow at the first offending
    accumulation step, which for an unsigned radix-10 parse is equivalent to
    this final-value bound since the accumulator only grows. -/
def parseUsize (s : List Char) : Option Nat :=
  let digits := match s with
    | c :: rest => if c = '+' then rest else s
    | [] => s
  if digits = [] then none
  else if digits.all Char.isDigit then
    if digitsToNat digits ≤ USIZE_MAX then some (digitsToNat digits) else none
  else none

/-- `impl TryFrom<String> for Slot` (src/day.rs lines 55-80).  `Slot::now()`
    reads the wall clock, so the current slot is an injected parameter
    `now`; `none` is the `Err` outcome. -/
def tryFromSlot (now : Nat) (text : List Char) : Option Nat :=
  if text = "now".data ∨ text = "n".data ∨ text = [] then some now
  else
    match splitOnce ':' text with
    | some (textHrs, textMin) =>
        match parseUsize textHrs with
        | none => none
        | some hrs =>
            let mn := (parseUsize textMin).getD 0
            if 23 < hrs ∨ 59 < mn then none else some (Slot.fromTime hrs mn)
    | none =>
        match parseUsize text with
        | none => none
        | some hrs =>
            if 23 < hrs ∨ 59 < (0 : Nat) then none else some (Slot.fromTime hrs 0)

/-- Rust `str::split(" - ")` (src/main.rs line 517) on character lists:
    `acc` holds the reversed characters of the chunk being read. -/
def splitDash : List Char → List Char → List (List Char)
  | a :: b :: c :: rest, acc =>
      if a = ' ' ∧ b = '-' ∧ c = ' ' then acc.reverse :: splitDash rest []
      else splitDash (b :: c :: rest) (a :: acc)
  | a :: rest, acc => splitDash rest (a :: acc)
  | [], acc => [acc.reverse]

/-- One line of the re-import closure in `UI::edit_with_text_editor`
    (src/main.rs lines 516-524): drop the time field, resolve the name
    against the catalog (unmatched name gives an empty slot), attach the
    third field, when present, as the comment.  `none` models the
    `expect("format")` panic on a line without a " - " separator. -/
def parseLine (catalog : List Activity) (line : List Char) : Option (Option Activity) :=
  match splitDash line [] with
  | _ :: nameField :: rest =>
      match Activity.getByName catalog (String.mk nameField) with
      | some act => some (some { act with comment := rest.head?.map String.mk })
      | none => some none
  | _ => none

/-- `line.starts_with("#")` (src/main.rs line 515). -/
def startsWithHash : List Char → Bool
  | c :: _ => c == '#'
  | [] => false

/-- The re-import performed by `UI::edit_with_text_editor` (src/main.rs
    lines 512-525) on the text read back from the editor: filter out
    marker lines, parse every remaining line, and return the new
    `time_slots` contents.  No length validation is performed. -/
def importTimeline (catalog : List Activity) (lines : List (List Char)) :
    Option (List (Option Activity)) :=
  (lines.filter (fun l => !(startsWithHash l))).mapM (parseLine catalog)

/-- The assignment `self.day.time_slots = ...` closing the re-import
    (src/main.rs line 513): the parsed lines replace the day's slots
    whatever their number. -/
def editApply (catalog : List Activity) (d : Day) (lines : List (List Char)) : Option Day :=
  (importTimeline catalog lines).map (fun ts => { d with time_slots := ts })

/-- The `for s in *start..*end` loop of `UI::ask_about_activity`
    (src/main.rs lines 440-442), by fuel: `fillRangeGo act n s slots`
    overwrites the `n` slots starting at index `s` with a clone of `act`. -/
def fillRangeGo (act : Activity) : Nat → Nat → List (Option Activity) → List (Option Activity)
  | 0, _, slots => slots
  | n + 1, s, slots => fillRangeGo act n (s + 1) (slots.set s (some act))

def fillRange (slots : List (Option Activity)) (act : Activity) (s e : Nat) :
    List (Option Activity) :=
  fillRangeGo act (e - s) s slots

/-- The state mutation performed by `UI::ask_about_activity` (src/main.rs
    lines 431-461) once the interaction is resolved: the chosen activity
    `act` overwrites every slot in `[start, endIdx)`, and when the user
    picked a comment it is attached to the clone stored at `start` only
    (`self.day.time_slots[*start].as_mut().unwrap().comment = ...`,
    line 452). -/
def recordActivity (slots : List (Option Activity)) (start endIdx : Nat)
    (act : Activity) (comment : Option String) : List (Option Activity) :=
  let filled := fillRange slots act start endIdx
  match comment with
  | none => filled
  | some c =>
      filled.set start ((filled.getD start none).map (fun a => { a with comment := some c }))

/-- The per-date loading loop of `UI::multiday_statistics` (src/main.rs
    lines 573-607): the file system is the injected map `fs` from a date
    to the day stored for it (`none` when `file.exists()` is false, in
    which case the date is skipped). -/
def loadDays (fs : Nat → Option Day) : List Nat → List Day
  | [] => []
  | d :: rest =>
      match fs d with
      | some day => day :: loadDays fs rest
      | none => loadDays fs rest

/-- `let hours: f32 = days.iter().map(|d| d.hours_productive()).sum()`
    (src/main.rs line 608). -/
def multidayHours (fs : Nat → Option Day) (dates : List Nat) : Rat :=
  ((loadDays fs dates).map Day.hoursProductive).sum

/-- `days.len()`, the day count used for the target and score
    (src/main.rs lines 631-641). -/
def multidayCount (fs : Nat → Option Day) (dates : List Nat) : Nat :=
  (loadDays fs dates).length

/-- `PRODUCTIVE_TARGET * days.len()` (src/main.rs line 639). -/
def multidayTarget (fs : Nat → Option Day) (dates : List Nat) : Rat :=
  PRODUCTIVE_TARGET * (multidayCount fs dates : Rat)

/-- Catalog with a duplicated first name character, for evaluating the
    shortcut derivation. -/
def abCatalog : List Activity :=
  [{ name := "ab", productive := true, comment := none },
   { name := "ab", productive := false, comment := some "x" }]

/-- Catalog used for the re-import evaluation (no activity named "empty"). -/
def editCatalog : List Activity :=
  [{ name := "work", productive := true, comment := none }]

/-- 95 data lines (one fewer than `DAY_SLOTS`), as they result from
    deleting one line of the exported timeline in the editor. -/
def editedLines95 : List (List Char) := List.replicate 95 ("x - empty".data)

/-- Sample values for the record-activity witness. -/
def demoAct : Activity := { name := "code", productive := true, comment := none }

def demoSlots : List (Option Activity) := [none, none, none, none]

/-- Sample persisted-day map for the aggregation witness: only date 0 has
    a file. -/
def demoDay : Day :=
  { time_slots := some demoAct :: List.replicate (DAY_SLOTS - 1) none }

def demoFs : Nat → Option Day := fun n => if n = 0 then some demoDay else none

/-- C1: evaluation at the failing input.  On a day whose `time_slots` all
    contain the identical activity, `slots_collapsed` yields NO run at all:
    the `scan` never flushes its final run, so the claimed single run
    `(Slot 0, Slot DAY_SLOTS, activity)` is never emitted. -/
theorem slots_collapsed_all_same_drops_run :
    allSameDay.slotsCollapsed = [] := by decide

/-- C2: counterexample.  With `SLOTS_PER_HOUR = 4` and `DAY_START = 16`,
    `Slot(47)` does not display as "03:30". -/
theorem slot47_display_ne :
    Slot.display 47 ≠ "03:30" := by decide

/-- C2 (amended): with the program's constants, `Slot(0)` displays as
    "04:00" and `Slot(47)` displays as "15:45". -/
theorem slot_display_examples :
    Slot.display 0 = "04:00" ∧ Slot.display 47 = "15:45" := by decide

/-- Helper: the closed form of `Slot::from_time` on in-range inputs. -/
theorem fromTime_eq (h m : Nat) (hh : h ≤ 23) (hm : m ≤ 59) :
    Slot.fromTime h m = (h * 4 + m / 15 + 80) % 96 := by
  have heq : Slot.fromTime h m =
      ((((h * 4 + m / 15 : Nat) : Int) - 16 + 96) % 18446744073709551616).toNat % 96 := rfl
  rw [heq]
  omega

/-- C3: for every wall-clock `hour` in `[0, 23]` and `minute` in `[0, 59]`,
    displaying `Slot::from_time(hour, minute)` reproduces the zero-padded
    time with the minute truncated down to its slot boundary (a multiple of
    15 with 4 slots per hour). -/
theorem fromTime_display_round_trip (h m : Nat) (hh : h ≤ 23) (hm : m ≤ 59) :
    Slot.display (Slot.fromTime h m) =
      pad2 h ++ ":" ++ pad2 (m / (60 / SLOTS_PER_HOUR) * (60 / SLOTS_PER_HOUR)) := by
  have hd : ∀ s : Nat, Slot.display s =
      pad2 (((s + 16) % 96) / 4) ++ ":" ++ pad2 ((((s + 16) % 96) % 4) * 15) := fun _ => rfl
  rw [hd, fromTime_eq h m hh hm]
  have h1 : ((h * 4 + m / 15 + 80) % 96 + 16) % 96 / 4 = h := by omega
  have h2 : ((h * 4 + m / 15 + 80) % 96 + 16) % 96 % 4 = m / 15 := by omega
  have h3 : m / (60 / SLOTS_PER_HOUR) * (60 / SLOTS_PER_HOUR) = m / 15 * 15 := rfl
  rw [h1, h2, h3]

/-- C3 witness: 18:47 renders as "18:45". -/
theorem fromTime_display_round_trip_witness :
    Slot.display (Slot.fromTime 18 47) =
      pad2 18 ++ ":" ++ pad2 (47 / (60 / SLOTS_PER_HOUR) * (60 / SLOTS_PER_HOUR)) :=
  fromTime_display_round_trip 18 47 (by decide) (by decide)

/-- C10: for every in-range hour and minute the signed intermediate of
    `Slot::from_time` is non-negative (the cast to `usize` cannot
    underflow) and the resulting index is below `DAY_SLOTS`, so indexing a
    well-formed day's `time_slots` with it is in bounds. -/
theorem fromTime_cast_safe (h m : Nat) (hh : h ≤ 23) (hm : m ≤ 59) :
    0 ≤ Slot.fromTimePre h m ∧ Slot.fromTime h m < DAY_SLOTS ∧
      ∀ d : Day, d.time_slots.length = DAY_SLOTS →
        Slot.fromTime h m < d.time_slots.length := by
  have hp : Slot.fromTimePre h m = (((h * 4 + m / 15 : Nat) : Int) - 16 + 96) := rfl
  have heq : Slot.fromTime h m =
      ((((h * 4 + m / 15 : Nat) : Int) - 16 + 96) % 18446744073709551616).toNat % 96 := rfl
  have hds : DAY_SLOTS = 96 := rfl
  have hb : 0 ≤ Slot.fromTimePre h m ∧ Slot.fromTime h m < DAY_SLOTS := by
    rw [hp, heq, hds]; omega
  exact ⟨hb.1, hb.2, fun d hd => by rw [hd]; exact hb.2⟩

/-- C10 witness: at midnight (hour 0, minute 0) the intermediate is
    non-negative and the slot index is in bounds for a default day. -/
theorem fromTime_cast_safe_witness :
    0 ≤ Slot.fromTimePre 0 0 ∧ Slot.fromTime 0 0 < DAY_SLOTS ∧
      ∀ d : Day, d.time_slots.length = DAY_SLOTS →
        Slot.fromTime 0 0 < d.time_slots.length :=
  fromTime_cast_safe 0 0 (by decide) (by decide)

/-- C5: evaluation at the failing input.  Re-importing an edited timeline
    whose non-marker line count is 95 (one line deleted, `DAY_SLOTS` is 96)
    raises no error: the import performs no length validation and silently
    replaces the day's slot sequence with the 95 parsed entries.  Only the
    next run's load assertion
    `assert_eq!(day.time_slots.len(), DAY_SLOTS, ...)` rejects the
    already-persisted truncated file. -/
theorem edit_import_accepts_wrong_line_count :
    editApply editCatalog { time_slots := List.replicate DAY_SLOTS none } editedLines95 =
        some { time_slots := List.replicate 95 none } ∧
      (95 : Nat) ≠ DAY_SLOTS := by decide

/-- Helper: the accumulator-passing shortcut loop equals its structural
    companion. -/
theorem getShortcutsAux_eq (l : List Activity) :
    ∀ acc, getShortcutsAux l acc = acc ++ buildShortcuts acc l := by
  induction l with
  | nil => intro acc; simp [getShortcutsAux, buildShortcuts]
  | cons a rest ih =>
      intro acc
      simp only [getShortcutsAux, buildShortcuts]
      rw [ih]
      simp

/-- Helper: `buildShortcuts` produces one entry per activity. -/
theorem buildShortcuts_length (l : List Activity) :
    ∀ claimed, (buildShortcuts claimed l).length = l.length := by
  induction l with
  | nil => intro claimed; simp [buildShortcuts]
  | cons a rest ih => intro claimed; simp [buildShortcuts, ih]

/-- Helper: entry `i` of `buildShortcuts` is the first name character not
    claimed by the already-fixed shortcuts before it. -/
theorem buildShortcuts_get? (l : List Activity) :
    ∀ (claimed : List (Option Char)) (i : Nat) (h : i < l.length),
      (buildShortcuts claimed l).get? i =
        some ((l.get ⟨i, h⟩).name.data.find?
          (fun c => !((claimed ++ (buildShortcuts claimed l).take i).contains (some c)))) := by
  induction l with
  | nil => intro claimed i h; exact absurd h (by simp)
  | cons a rest ih =>
      intro claimed i h
      match i with
      | 0 => simp [buildShortcuts]
      | Nat.succ j =>
          have hj : j < rest.length := by simpa using h
          simp only [buildShortcuts, List.get?_cons_succ, List.get_cons_succ,
            List.take_succ_cons]
          rw [ih (claimed ++ [a.name.data.find? (fun c => !(claimed.contains (some c)))]) j hj]
          simp

/-- C8: for every activity catalog, the derived shortcut table has one
    entry per activity, and the entry for activity `i` is the first
    character of its name not already claimed by an earlier activity's
    shortcut (`none` when every character of the name is claimed). -/
theorem shortcuts_first_unclaimed (acts : List Activity) :
    (Settings.getShortcuts acts).length = acts.length ∧
    ∀ i (h : i < acts.length),
      (Settings.getShortcuts acts).get? i =
        some ((acts.get ⟨i, h⟩).name.data.find?
          (fun c => !(((Settings.getShortcuts acts).take i).contains (some c)))) := by
  have he : Settings.getShortcuts acts = buildShortcuts [] acts := by
    simpa using getShortcutsAux_eq acts []
  constructor
  · rw [he]; exact buildShortcuts_length acts []
  · intro i h
    rw [he]
    have hg := buildShortcuts_get? acts [] i h
    simpa using hg

/-- C8 witness: in a catalog of two activities both named "ab", the second
    one receives shortcut 'b' because 'a' is already claimed. -/
theorem shortcuts_first_unclaimed_witness :
    1 < abCatalog.length ∧
      (Settings.getShortcuts abCatalog).get? 1 = some (some 'b') :=
  ⟨by decide, ((shortcuts_first_unclaimed abCatalog).2 1 (by decide)).trans (by decide)⟩

/-- Helper: the fill loop preserves the slot count. -/
theorem fillRangeGo_length (act : Activity) :
    ∀ (n s : Nat) (slots : List (Option Activity)),
      (fillRangeGo act n s slots).length = slots.length := by
  intro n
  induction n with
  | zero => intro s slots; rfl
  | succ k ih => intro s slots; rw [fillRangeGo, ih]; exact List.length_set ..

/-- Helper: the fill loop leaves indices outside `[s, s + n)` unchanged. -/
theorem fillRangeGo_get?_out (act : Activity) :
    ∀ (n s : Nat) (slots : List (Option Activity)) (j : Nat),
      j < s ∨ s + n ≤ j → (fillRangeGo act n s slots).get? j = slots.get? j := by
  intro n
  induction n with
  | zero => intro s slots j _; rfl
  | succ k ih =>
      intro s slots j hj
      rw [fillRangeGo, ih (s + 1) (slots.set s (some act)) j (by omega)]
      exact List.get?_set_ne (some act) slots (by omega)

/-- Helper: the fill loop writes `some act` at every index of `[s, s + n)`
    that is inside the list. -/
theorem fillRangeGo_get?_in (act : Activity) :
    ∀ (n s : Nat) (slots : List (Option Activity)) (j : Nat),
      s ≤ j → j < s + n → j < slots.length →
      (fillRangeGo act n s slots).get? j = some (some act) := by
  intro n
  induction n with
  | zero => intro s slots j h1 h2 _; omega
  | succ k ih =>
      intro s slots j h1 h2 h3
      rw [fillRangeGo]
      rcases Nat.eq_or_lt_of_le h1 with heq | hlt
      · rw [fillRangeGo_get?_out act k (s + 1) (slots.set s (some act)) j (by omega)]
        subst heq
        exact List.get?_set_eq_of_lt (some act) h3
      · exact ih (s + 1) (slots.set s (some act)) j (by omega) (by omega)
          (by rw [List.length_set]; exact h3)

/-- C9: recording an activity over `[start, endIdx)` overwrites exactly
    that range with a clone of the chosen activity, attaches the optional
    comment only to the clone stored at `start`, and leaves every slot
    outside the range unchanged. -/
theorem record_activity_frame (slots : List (Option Activity)) (start endIdx : Nat)
    (act : Activity) (comment : Option String)
    (h1 : start < endIdx) (h2 : endIdx ≤ slots.length) :
    (recordActivity slots start endIdx act comment).length = slots.length ∧
    (∀ j, j < start ∨ endIdx ≤ j →
      (recordActivity slots start endIdx act comment).get? j = slots.get? j) ∧
    (∀ j, start < j → j < endIdx →
      (recordActivity slots start endIdx act comment).get? j = some (some act)) ∧
    (recordActivity slots start endIdx act comment).get? start =
      some (some (match comment with
                  | none => act
                  | some c => { act with comment := some c })) := by
  have hfl : (fillRange slots act start endIdx).length = slots.length :=
    fillRangeGo_length act (endIdx - start) start slots
  have hout : ∀ j, j < start ∨ endIdx ≤ j →
      (fillRange slots act start endIdx).get? j = slots.get? j := by
    intro j hj
    exact fillRangeGo_get?_out act (endIdx - start) start slots j (by omega)
  have hin : ∀ j, start ≤ j → j < endIdx →
      (fillRange slots act start endIdx).get? j = some (some act) := by
    intro j hj1 hj2
    exact fillRangeGo_get?_in act (endIdx - start) start slots j hj1 (by omega) (by omega)
  match comment with
  | none =>
      exact ⟨hfl, hout, fun j hj1 hj2 => hin j (by omega) hj2,
        hin start (Nat.le_refl start) h1⟩
  | some c =>
      have hstart : (fillRange slots act start endIdx).getD start none = some act := by
        unfold List.getD
        rw [hin start (Nat.le_refl start) h1]
        rfl
      constructor
      · show ((fillRange slots act start endIdx).set start _).length = slots.length
        rw [List.length_set]; exact hfl
      constructor
      · intro j hj
        show ((fillRange slots act start endIdx).set start _).get? j = slots.get? j
        rw [List.get?_set_ne _ _ (by omega)]
        exact hout j hj
      constructor
      · intro j hj1 hj2
        show ((fillRange slots act start endIdx).set start _).get? j = some (some act)
        rw [List.get?_set_ne _ _ (by omega)]
        exact hin j (by omega) hj2
      · show ((fillRange slots act start endIdx).set start _).get? start = _
        rw [hstart]
        exact List.get?_set_eq_of_lt _ (by omega)

/-- C9 witness: recording over `[1, 3)` in a four-slot day with a comment
    leaves slot 0 untouched. -/
theorem record_activity_frame_witness :
    (1 : Nat) < 3 ∧ (3 : Nat) ≤ demoSlots.length ∧
      (recordActivity demoSlots 1 3 demoAct (some "c")).get? 0 = demoSlots.get? 0 :=
  ⟨by decide, by decide,
    (record_activity_frame demoSlots 1 3 demoAct (some "c") (by decide) (by decide)).2.1
      0 (Or.inl (by decide))⟩

/-- Helper: the first catalog entry whose name matches is the one found. -/
theorem getByName_first_match (acts : List Activity) :
    ∀ (nm : String) (i : Nat) (h : i < acts.length),
      (acts.get ⟨i, h⟩).name = nm →
      (∀ j (hj : j < i), (acts.get ⟨j, Nat.lt_trans hj h⟩).name ≠ nm) →
      Activity.getByName acts nm = some (acts.get ⟨i, h⟩) := by
  induction acts with
  | nil => intro nm i h; exact absurd h (by simp)
  | cons a rest ih =>
      intro nm i h hname hbefore
      match i with
      | 0 =>
          have hp : (a.name == nm) = true := by simpa using hname
          have hfound : Activity.getByName (a :: rest) nm = some a := by
            rw [Activity.getByName]; exact List.find?_cons_of_pos _ hp
          simpa using hfound
      | Nat.succ j =>
          have ha : a.name ≠ nm := by simpa using hbefore 0 (Nat.succ_pos j)
          have hj : j < rest.length := by simpa using h
          have hrec := ih nm j hj (by simpa using hname)
            (fun k hk => by simpa using hbefore (k + 1) (Nat.succ_lt_succ hk))
          rw [Activity.getByName, List.find?_cons_of_neg _ (by simp [ha])]
          simpa [Activity.getByName] using hrec

/-- C6: `Activity` equality is by name alone, and `get_by_name` returns the
    first catalog entry with the requested name (whatever its `productive`
    and `comment` fields), or no value when no entry has that name. -/
theorem activity_eq_by_name_only :
    (∀ a b : Activity, Activity.eqByName a b = true ↔ a.name = b.name) ∧
    (∀ (acts : List Activity) (nm : String),
      (∀ a ∈ acts, a.name ≠ nm) → Activity.getByName acts nm = none) ∧
    (∀ (acts : List Activity) (nm : String) (a : Activity),
      Activity.getByName acts nm = some a → a.name = nm ∧ a ∈ acts) ∧
    (∀ (acts : List Activity) (nm : String) (i : Nat) (h : i < acts.length),
      (acts.get ⟨i, h⟩).name = nm →
      (∀ j (hj : j < i), (acts.get ⟨j, Nat.lt_trans hj h⟩).name ≠ nm) →
      Activity.getByName acts nm = some (acts.get ⟨i, h⟩)) := by
  refine ⟨?_, ?_, ?_, fun acts => getByName_first_match acts⟩
  · intro a b; simp [Activity.eqByName]
  · intro acts nm h
    rw [Activity.getByName, List.find?_eq_none]
    intro a ha
    simp [h a ha]
  · intro acts nm a h
    have h' : acts.find? (fun o => o.name == nm) = some a := h
    exact ⟨by simpa using List.find?_some h', List.mem_of_find?_eq_some h'⟩

/-- C6 witness: looking up a name absent from the catalog yields no value. -/
theorem activity_eq_by_name_only_witness :
    Activity.getByName abCatalog "zz" = none :=
  activity_eq_by_name_only.2.1 abCatalog "zz" (by decide)

/-- Helper: the loading loop keeps exactly the dates whose file exists. -/
theorem loadDays_eq_filterMap (fs : Nat → Option Day) :
    ∀ dates : List Nat, loadDays fs dates = dates.filterMap fs := by
  intro dates
  induction dates with
  | nil => rfl
  | cons d rest ih =>
      cases hd : fs d with
      | some day => simp [loadDays, hd, ih, List.filterMap_cons]
      | none => simp [loadDays, hd, ih, List.filterMap_cons]

/-- Helper: a requested date with no file strictly shrinks the loaded
    count. -/
theorem filterMap_length_lt_of_none {α β : Type} (f : α → Option β) :
    ∀ (l : List α) (a : α), a ∈ l → f a = none →
      (l.filterMap f).length < l.length := by
  intro l
  induction l with
  | nil => intro a h; exact absurd h (by simp)
  | cons x rest ih =>
      intro a hmem hnone
      rw [List.filterMap_cons]
      cases hx : f x with
      | none =>
          simp only [List.length_cons]
          exact Nat.lt_succ_of_le (List.length_filterMap_le f rest)
      | some b =>
          have hr : a ∈ rest := by
            rcases List.mem_cons.mp hmem with h1 | h1
            · subst h1; rw [hx] at hnone; cases hnone
            · exact h1
          simpa using Nat.succ_lt_succ (ih a hr hnone)

/-- C7: multi-day aggregation sums `hours_productive` over only the dates
    whose file exists, and the day count used for the target equals the
    number of files actually loaded — at most, and strictly fewer than,
    the number of requested dates when one is missing. -/
theorem multiday_counts_only_loaded (fs : Nat → Option Day) (dates : List Nat) :
    multidayHours fs dates = ((dates.filterMap fs).map Day.hoursProductive).sum ∧
    multidayCount fs dates = (dates.filterMap fs).length ∧
    multidayTarget fs dates = PRODUCTIVE_TARGET * ((dates.filterMap fs).length : Rat) ∧
    multidayCount fs dates ≤ dates.length ∧
    ((∃ d ∈ dates, fs d = none) → multidayCount fs dates < dates.length) := by
  have hl := loadDays_eq_filterMap fs dates
  refine ⟨?_, ?_, ?_, ?_, ?_⟩
  · rw [multidayHours, hl]
  · rw [multidayCount, hl]
  · rw [multidayTarget, multidayCount, hl]
  · rw [multidayCount, hl]; exact List.length_filterMap_le fs dates
  · rintro ⟨d, hmem, hnone⟩
    rw [multidayCount, hl]
    exact filterMap_length_lt_of_none fs dates d hmem hnone

/-- C7 witness: requesting dates 0, 1, 2 when only date 0 has a file loads
    one day, counts one day, and totals that day's productive hours. -/
theorem multiday_counts_only_loaded_witness :
    multidayHours demoFs [0, 1, 2] = Day.hoursProductive demoDay ∧
      multidayCount demoFs [0, 1, 2] < 3 := by
  have hmain := multiday_counts_only_loaded demoFs [0, 1, 2]
  constructor
  · rw [hmain.1]
    simp [demoFs, List.filterMap_cons]
  · exact hmain.2.2.2.2 ⟨1, by decide, rfl⟩

/-- Helper: a string accepted by the `usize` parser consists of an optional
    plus sign and digits. -/
theorem parseUsize_chars :
    ∀ (t : List Char) (n : Nat), parseUsize t = some n →
      ∀ c ∈ t, c = '+' ∨ c.isDigit = true := by
  intro t n hp c hc
  match t with
  | [] => simp [parseUsize] at hp
  | a :: rest =>
      by_cases ha : a = '+'
      · have hform : parseUsize (a :: rest) =
            (if rest = [] then none
             else if rest.all Char.isDigit then
               (if digitsToNat rest ≤ USIZE_MAX then some (digitsToNat rest) else none)
             else none) := by
          simp [parseUsize, ha]
        rw [hform] at hp
        have hall : rest.all Char.isDigit = true := by
          by_cases h1 : rest = []
          · simp [h1] at hp
          · by_cases h2 : rest.all Char.isDigit
            · exact h2
            · simp [h1, h2] at hp
        rcases List.mem_cons.mp hc with h1 | h1
        · left; rw [h1, ha]
        · right; exact List.all_eq_true.mp hall c h1
      · have hform : parseUsize (a :: rest) =
            (if (a :: rest).all Char.isDigit then
               (if digitsToNat (a :: rest) ≤ USIZE_MAX then
                 some (digitsToNat (a :: rest)) else none)
             else none) := by
          simp [parseUsize, ha]
        rw [hform] at hp
        have hall : (a :: rest).all Char.isDigit = true := by
          by_cases h2 : (a :: rest).all Char.isDigit
          · exact h2
          · simp [h2] at hp
        right; exact List.all_eq_true.mp hall c hc

/-- Helper: a parsed hour or minute field contains no colon. -/
theorem parseUsize_no_colon (t : List Char) (n : Nat) (hp : parseUsize t = some n) :
    ':' ∉ t := by
  intro hc
  rcases parseUsize_chars t n hp ':' hc with h | h
  · exact absurd h (by decide)
  · exact absurd h (by decide)

/-- Helper: `split_once` at the first colon of `th ++ ":" ++ tm`. -/
theorem splitOnce_append (tm : List Char) :
    ∀ th : List Char, ':' ∉ th → splitOnce ':' (th ++ ':' :: tm) = some (th, tm) := by
  intro th
  induction th with
  | nil => intro _; simp [splitOnce]
  | cons c r ih =>
      intro hnc
      have hc : ¬(c = ':') := fun h => hnc (by rw [h]; exact List.mem_cons_self ..)
      simp only [List.cons_append, splitOnce, if_neg hc, List.append_eq]
      rw [ih (fun h => hnc (List.mem_cons_of_mem c h))]
      rfl

/-- Helper: `split_once` on colon-free text finds nothing. -/
theorem splitOnce_no_colon (t : List Char) (h : ':' ∉ t) : splitOnce ':' t = none := by
  induction t with
  | nil => rfl
  | cons c r ih =>
      have hc : ¬(c = ':') := fun hh => h (by rw [hh]; exact List.mem_cons_self ..)
      simp only [splitOnce, if_neg hc]
      rw [ih (fun hh => h (List.mem_cons_of_mem c hh))]
      rfl

/-- Helper: inversion of a successful `split_once`. -/
theorem splitOnce_eq_some (sep : Char) :
    ∀ (t a b : List Char), splitOnce sep t = some (a, b) →
      t = a ++ sep :: b ∧ sep ∉ a := by
  intro t
  induction t with
  | nil => intro a b h; exact absurd h (by simp [splitOnce])
  | cons c rest ih =>
      intro a b h
      by_cases hc : c = sep
      · rw [splitOnce, if_pos hc] at h
        simp only [Option.some_inj, Prod.mk.injEq] at h
        obtain ⟨ha, hb⟩ := h
        subst ha; subst hb; subst hc
        exact ⟨rfl, by simp⟩
      · simp only [splitOnce, if_neg hc] at h
        cases hr : splitOnce sep rest with
        | none => rw [hr] at h; exact absurd h (by simp)
        | some p =>
            obtain ⟨a1, b1⟩ := p
            rw [hr] at h
            simp only [Option.map, Option.some_inj, Prod.mk.injEq] at h
            obtain ⟨ha, hb⟩ := h
            subst ha; subst hb
            obtain ⟨ht, hna⟩ := ih a1 b1 hr
            subst ht
            have hne : ¬(sep = c) := fun hh => hc hh.symm
            exact ⟨rfl, by simp [List.mem_cons, not_or, hne, hna]⟩

/-- Helper: text containing a colon is not one of the "now" spellings. -/
theorem colon_text_not_now (t : List Char) (h : ':' ∈ t) :
    ¬(t = "now".data ∨ t = "n".data ∨ t = []) := by
  rintro (rfl | rfl | rfl) <;> exact absurd h (by decide)

/-- Helper: text accepted by the `usize` parser is not one of the "now"
    spellings. -/
theorem parse_some_not_now (t : List Char) (n : Nat) (hp : parseUsize t = some n) :
    ¬(t = "now".data ∨ t = "n".data ∨ t = []) := by
  rintro (rfl | rfl | rfl)
  · rw [(by decide : parseUsize "now".data = none)] at hp; exact Option.noConfusion hp
  · rw [(by decide : parseUsize "n".data = none)] at hp; exact Option.noConfusion hp
  · rw [(by decide : parseUsize ([] : List Char) = none)] at hp; exact Option.noConfusion hp

/-- Helper: reduction of `tryFromSlot` on text of the shape `H:MM`. -/
theorem tryFromSlot_colon_path (now : Nat) (th tm : List Char) (hth : ':' ∉ th) :
    tryFromSlot now (th ++ ':' :: tm) =
      (match parseUsize th with
       | none => none
       | some hrs =>
           if 23 < hrs ∨ 59 < (parseUsize tm).getD 0 then none
           else some (Slot.fromTime hrs ((parseUsize tm).getD 0))) := by
  have hmem : ':' ∈ th ++ ':' :: tm := List.mem_append_right th (List.mem_cons_self ..)
  have hnn := colon_text_not_now _ hmem
  simp only [tryFromSlot, if_neg hnn, splitOnce_append tm th hth]

/-- Helper: reduction of `tryFromSlot` on a bare parsable hour. -/
theorem tryFromSlot_plain_path (now : Nat) (t : List Char) (n : Nat)
    (hp : parseUsize t = some n) :
    tryFromSlot now t = (if 23 < n then none else some (Slot.fromTime n 0)) := by
  have hnn := parse_some_not_now t n hp
  have hnc := splitOnce_no_colon t (parseUsize_no_colon t n hp)
  simp only [tryFromSlot, if_neg hnn, hnc, hp]
  simp

/-- C4: behaviour of `TryFrom<String> for Slot`.  "now", "n" and the empty
    string give the current slot; a parsable hour with a parsable minute
    within range gives `from_time(hour, minute)`; an omitted or unparsable
    minute — including one that overflows `usize`, whose parse error is
    swallowed by `unwrap_or(0)` — defaults to 0; an hour above 23 or a
    minute above 59 is an error; text whose hour field does not parse
    (":", ":30", and any other malformed text) is an error; and every
    successful parse is one of those shapes. -/
theorem try_from_slot_spec (now : Nat) :
    (tryFromSlot now "now".data = some now ∧ tryFromSlot now "n".data = some now ∧
      tryFromSlot now [] = some now) ∧
    (∀ th tm h m, parseUsize th = some h → parseUsize tm = some m → h ≤ 23 → m ≤ 59 →
      tryFromSlot now (th ++ ':' :: tm) = some (Slot.fromTime h m)) ∧
    (∀ th tm h, parseUsize th = some h → parseUsize tm = none → h ≤ 23 →
      tryFromSlot now (th ++ ':' :: tm) = some (Slot.fromTime h 0)) ∧
    (∀ t h, parseUsize t = some h → h ≤ 23 → tryFromSlot now t = some (Slot.fromTime h 0)) ∧
    (∀ th tm h, parseUsize th = some h → 23 < h → tryFromSlot now (th ++ ':' :: tm) = none) ∧
    (∀ th tm h m, parseUsize th = some h → parseUsize tm = some m → 59 < m →
      tryFromSlot now (th ++ ':' :: tm) = none) ∧
    (∀ t h, parseUsize t = some h → 23 < h → tryFromSlot now t = none) ∧
    (∀ th tm, parseUsize th = none → ':' ∉ th → tryFromSlot now (th ++ ':' :: tm) = none) ∧
    (tryFromSlot now ":".data = none ∧ tryFromSlot now "500:".data = none ∧
      tryFromSlot now ":30".data = none) ∧
    (tryFromSlot now ("18".data ++ ':' :: "18446744073709551616".data) =
      some (Slot.fromTime 18 0)) ∧
    (∀ t s, tryFromSlot now t = some s →
      ((t = "now".data ∨ t = "n".data ∨ t = []) ∧ s = now) ∨
        ∃ h m, h ≤ 23 ∧ m ≤ 59 ∧ s = Slot.fromTime h m) := by
  have hnow : tryFromSlot now "now".data = some now := by
    simp [tryFromSlot]
  have hn : tryFromSlot now "n".data = some now := by
    simp [tryFromSlot]
  have hempty : tryFromSlot now ([] : List Char) = some now := by
    simp [tryFromSlot]
  have hvalid : ∀ th tm h m, parseUsize th = some h → parseUsize tm = some m →
      h ≤ 23 → m ≤ 59 → tryFromSlot now (th ++ ':' :: tm) = some (Slot.fromTime h m) := by
    intro th tm h m hth htm hh hm
    rw [tryFromSlot_colon_path now th tm (parseUsize_no_colon th h hth), hth, htm]
    simp only [Option.getD_some]
    rw [if_neg (by omega)]
  have hdefault : ∀ th tm h, parseUsize th = some h → parseUsize tm = none → h ≤ 23 →
      tryFromSlot now (th ++ ':' :: tm) = some (Slot.fromTime h 0) := by
    intro th tm h hth htm hh
    rw [tryFromSlot_colon_path now th tm (parseUsize_no_colon th h hth), hth, htm]
    simp only [Option.getD_none]
    rw [if_neg (by omega)]
  have hplain : ∀ t h, parseUsize t = some h → h ≤ 23 →
      tryFromSlot now t = some (Slot.fromTime h 0) := by
    intro t h hp hh
    rw [tryFromSlot_plain_path now t h hp, if_neg (by omega)]
  have hhourbad : ∀ th tm h, parseUsize th = some h → 23 < h →
      tryFromSlot now (th ++ ':' :: tm) = none := by
    intro th tm h hth hh
    rw [tryFromSlot_colon_path now th tm (parseUsize_no_colon th h hth), hth]
    simp only []
    rw [if_pos (Or.inl hh)]
  have hminbad : ∀ th tm h m, parseUsize th = some h → parseUsize tm = some m → 59 < m →
      tryFromSlot now (th ++ ':' :: tm) = none := by
    intro th tm h m hth htm hm
    rw [tryFromSlot_colon_path now th tm (parseUsize_no_colon th h hth), hth, htm]
    simp only [Option.getD_some]
    rw [if_pos (Or.inr hm)]
  have hplainbad : ∀ t h, parseUsize t = some h → 23 < h → tryFromSlot now t = none := by
    intro t h hp hh
    rw [tryFromSlot_plain_path now t h hp, if_pos hh]
  have hbadhour : ∀ th tm, parseUsize th = none → ':' ∉ th →
      tryFromSlot now (th ++ ':' :: tm) = none := by
    intro th tm hth hnc
    rw [tryFromSlot_colon_path now th tm hnc, hth]
  have hsound : ∀ t s, tryFromSlot now t = some s →
      ((t = "now".data ∨ t = "n".data ∨ t = []) ∧ s = now) ∨
        ∃ h m, h ≤ 23 ∧ m ≤ 59 ∧ s = Slot.fromTime h m := by
    intro t s hts
    by_cases hcond : t = "now".data ∨ t = "n".data ∨ t = []
    · left
      refine ⟨hcond, ?_⟩
      rw [tryFromSlot, if_pos hcond] at hts
      exact (Option.some_inj.mp hts).symm
    · right
      cases hsplit : splitOnce ':' t with
      | some p =>
          obtain ⟨a, b⟩ := p
          obtain ⟨ht, hna⟩ := splitOnce_eq_some ':' t a b hsplit
          subst ht
          cases hp : parseUsize a with
          | none =>
              rw [hbadhour a b hp hna] at hts
              exact Option.noConfusion hts
          | some hrs =>
              by_cases hh : 23 < hrs
              · rw [hhourbad a b hrs hp hh] at hts
                exact Option.noConfusion hts
              · cases hm : parseUsize b with
                | none =>
                    rw [hdefault a b hrs hp hm (by omega)] at hts
                    exact ⟨hrs, 0, by omega, by omega, (Option.some_inj.mp hts).symm⟩
                | some m =>
                    by_cases hm59 : 59 < m
                    · rw [hminbad a b hrs m hp hm hm59] at hts
                      exact Option.noConfusion hts
                    · rw [hvalid a b hrs m hp hm (by omega) (by omega)] at hts
                      exact ⟨hrs, m, by omega, by omega, (Option.some_inj.mp hts).symm⟩
      | none =>
          cases hp : parseUsize t with
          | none =>
              have hnone : tryFromSlot now t = none := by
                rw [tryFromSlot, if_neg hcond, hsplit, hp]
              rw [hnone] at hts
              exact Option.noConfusion hts
          | some hrs =>
              by_cases hh : 23 < hrs
              · rw [hplainbad t hrs hp hh] at hts
                exact Option.noConfusion hts
              · rw [hplain t hrs hp (by omega)] at hts
                exact ⟨hrs, 0, by omega, by omega, (Option.some_inj.mp hts).symm⟩
  have hex1 : tryFromSlot now ":".data = none := by
    have := hbadhour [] [] (by decide) (by decide)
    simpa using this
  have hex2 : tryFromSlot now "500:".data = none := by
    have := hhourbad "500".data [] 500 (by decide) (by decide)
    simpa using this
  have hex3 : tryFromSlot now ":30".data = none := by
    have := hbadhour [] "30".data (by decide) (by decide)
    simpa using this
  have hoverflow : tryFromSlot now ("18".data ++ ':' :: "18446744073709551616".data) =
      some (Slot.fromTime 18 0) :=
    hdefault "18".data "18446744073709551616".data 18 (by decide) (by decide) (by decide)
  exact ⟨⟨hnow, hn, hempty⟩, hvalid, hdefault, hplain, hhourbad, hminbad, hplainbad,
    hbadhour, ⟨hex1, hex2, hex3⟩, hoverflow, hsound⟩

/-- C4 witness: "18:45" parses to `from_time(18, 45)`. -/
theorem try_from_slot_spec_witness :
    parseUsize "18".data = some 18 ∧
      tryFromSlot 0 ("18".data ++ ':' :: "45".data) = some (Slot.fromTime 18 45) :=
  ⟨by decide,
    (try_from_slot_spec 0).2.1 "18".data "45".data 18 45 (by decide) (by decide)
      (by decide) (by decide)⟩
